import Mathlib

/-
  Verification development for the VID-FINGER forensic video-analysis service.

  The definitions below are a shallow embedding of the parts of the source that
  the verified properties are about:

  * `SHA256`                 — hashlib.sha256 (used by ChunkedUploadManager._calculate_checksum)
  * chunked upload model     — app/utils/chunked_upload.py, app/services/upload_service.py,
                               app/services/analysis_service.py, app/api/v1/endpoints/upload.py
  * webhook dispatcher       — app/services/webhook_service.py, app/config.py
  * pipeline executor        — app/services/analysis_processor.py
  * reprocess endpoint       — app/api/v1/endpoints/analysis.py

  Bytes are modelled as `List Nat` (each entry a byte value); machine integers
  as `Nat`/`Int` with explicit `% 2^32` where 32-bit overflow matters.
-/

namespace VidFinger

/-! ## SHA-256 (hashlib.sha256)

A direct implementation of FIPS 180-4 SHA-256 over byte lists, standing in for
Python's `hashlib.sha256`.  Words are `Nat` reduced mod `2^32`. -/

namespace SHA256

def M32 : Nat := 4294967296

def rotr (n x : Nat) : Nat := ((x >>> n) ||| (x <<< (32 - n))) % M32

def add32 (a b : Nat) : Nat := (a + b) % M32

def ch (x y z : Nat) : Nat := (x &&& y) ^^^ ((x ^^^ (M32 - 1)) &&& z)

def maj (x y z : Nat) : Nat := (x &&& y) ^^^ (x &&& z) ^^^ (y &&& z)

def bigS0 (x : Nat) : Nat := rotr 2 x ^^^ rotr 13 x ^^^ rotr 22 x

def bigS1 (x : Nat) : Nat := rotr 6 x ^^^ rotr 11 x ^^^ rotr 25 x

def smallS0 (x : Nat) : Nat := rotr 7 x ^^^ rotr 18 x ^^^ (x >>> 3)

def smallS1 (x : Nat) : Nat := rotr 17 x ^^^ rotr 19 x ^^^ (x >>> 10)

/-- The 64 FIPS 180-4 round constants, in decimal. -/
def K : List Nat :=
  [1116352408, 1899447441, 3049323471, 3921009573, 961987163, 1508970993,
   2453635748, 2870763221, 3624381080, 310598401, 607225278, 1426881987,
   1925078388, 2162078206, 2614888103, 3248222580, 3835390401, 4022224774,
   264347078, 604807628, 770255983, 1249150122, 1555081692, 1996064986,
   2554220882, 2821834349, 2952996808, 3210313671, 3336571891, 3584528711,
   113926993, 338241895, 666307205, 773529912, 1294757372, 1396182291,
   1695183700, 1986661051, 2177026350, 2456956037, 2730485921, 2820302411,
   3259730800, 3345764771, 3516065817, 3600352804, 4094571909, 275423344,
   430227734, 506948616, 659060556, 883997877, 958139571, 1322822218,
   1537002063, 1747873779, 1955562222, 2024104815, 2227730452, 2361852424,
   2428436474, 2756734187, 3204031479, 3329325298]

/-- Big-endian bytes of a single 32-bit word group: four bytes to one word. -/
def bytesToWords : List Nat → List Nat
  | a :: b :: c :: d :: rest => (((a * 256 + b) * 256 + c) * 256 + d) :: bytesToWords rest
  | _ => []

/-- Message schedule: the 16 block words extended to 64. -/
def schedule (block : List Nat) : Array Nat := Id.run do
  let mut w : Array Nat := (bytesToWords block).toArray
  for _ in [0:48] do
    let i := w.size
    w := w.push (add32 (add32 (smallS1 (w.getD (i - 2) 0)) (w.getD (i - 7) 0))
                       (add32 (smallS0 (w.getD (i - 15) 0)) (w.getD (i - 16) 0)))
  return w

structure Digest where
  a : Nat
  b : Nat
  c : Nat
  d : Nat
  e : Nat
  f : Nat
  g : Nat
  h : Nat
deriving Repr, DecidableEq

def compressRound (d : Digest) (kw : Nat × Nat) : Digest :=
  let t1 := add32 d.h (add32 (bigS1 d.e) (add32 (ch d.e d.f d.g) (add32 kw.1 kw.2)))
  let t2 := add32 (bigS0 d.a) (maj d.a d.b d.c)
  ⟨add32 t1 t2, d.a, d.b, d.c, add32 d.d t1, d.e, d.f, d.g⟩

def compress (d0 : Digest) (block : List Nat) : Digest :=
  let w := schedule block
  let d := (K.zip w.toList).foldl compressRound d0
  ⟨add32 d0.a d.a, add32 d0.b d.b, add32 d0.c d.c, add32 d0.d d.d,
   add32 d0.e d.e, add32 d0.f d.f, add32 d0.g d.g, add32 d0.h d.h⟩

/-- `n` big-endian bytes of `x`. -/
def toBytesBE (n x : Nat) : List Nat :=
  (List.range n).map (fun i => (x >>> (8 * (n - 1 - i))) % 256)

/-- FIPS 180-4 padding: append bit 1, zeros to 56 mod 64, then the 64-bit
bit length, big-endian. -/
def padMessage (msg : List Nat) : List Nat :=
  let L := msg.length
  let k := (119 - (L % 64)) % 64
  msg ++ [128] ++ List.replicate k 0 ++ toBytesBE 8 (8 * L)

/-- Split a list into chunks of `n + 1` elements (last chunk possibly short). -/
def chunkList (n : Nat) (l : List Nat) : List (List Nat) :=
  if l = [] then [] else l.take (n + 1) :: chunkList n (l.drop (n + 1))
termination_by l.length
decreasing_by
  simp only [List.length_drop]
  cases l with
  | nil => simp_all
  | cons x xs => simp; omega

/-- The eight FIPS 180-4 initial hash values, in decimal. -/
def initDigest : Digest :=
  ⟨1779033703, 3144134277, 1013904242, 2773480762,
   1359893119, 2600822924, 528734635, 1541459225⟩

/-- SHA-256 digest of a byte list, as 32 bytes. -/
def sha256 (msg : List Nat) : List Nat :=
  let d := (chunkList 63 (padMessage msg)).foldl compress initDigest
  toBytesBE 4 d.a ++ toBytesBE 4 d.b ++ toBytesBE 4 d.c ++ toBytesBE 4 d.d ++
  toBytesBE 4 d.e ++ toBytesBE 4 d.f ++ toBytesBE 4 d.g ++ toBytesBE 4 d.h

def hexChar (n : Nat) : Char :=
  if n < 10 then Char.ofNat (48 + n) else Char.ofNat (87 + n)

def byteToHex (b : Nat) : String := String.mk [hexChar (b / 16), hexChar (b % 16)]

/-- Lower-case hex digest, as returned by `hashlib.sha256(...).hexdigest()`. -/
def hexdigest (msg : List Nat) : String := String.join ((sha256 msg).map byteToHex)

theorem chunkList_flatten (n : Nat) (l : List Nat) : (chunkList n l).flatten = l := by
  rw [chunkList]
  by_cases h : l = []
  · simp [h]
  · rw [if_neg h]
    have ih := chunkList_flatten n (l.drop (n + 1))
    simp [ih]
termination_by l.length
decreasing_by
  simp only [List.length_drop]
  cases l with
  | nil => simp_all
  | cons x xs => simp; omega

end SHA256

/-! ## Chunked upload (app/utils/chunked_upload.py, app/services/upload_service.py)

Chunk files live on disk keyed by the formatted chunk number
(`chunk_{chunk_number:05d}`); that formatting is injective on integers, so the
per-upload chunk storage is a finite map from the integer chunk number to the
chunk's bytes, modelled as an association list.  The `chunks_received` dict has
exactly the keys of that map (`load_upload` rebuilds it by globbing the chunk
files).  File I/O is assumed to succeed (the `except` branch of
`ChunkedUploadManager.save_chunk` that returns `False` on an OS error is not
reachable in the model). -/

abbrev Bytes := List Nat

/-- First-match lookup in the chunk map. -/
def lookupChunk : List (Int × Bytes) → Int → Option Bytes
  | [], _ => none
  | c :: rest, k => if c.1 = k then some c.2 else lookupChunk rest k

/-- Writing chunk file `k`: overwrite if present, create otherwise
(`open(chunk_file, "wb")`). -/
def storeChunk : List (Int × Bytes) → Int → Bytes → List (Int × Bytes)
  | [], k, b => [(k, b)]
  | c :: rest, k, b => if c.1 = k then (k, b) :: rest else c :: storeChunk rest k b

/-- Decimal digits of `n`, most significant first (fuel-structured so it
computes by reduction; fuel `n + 1` always suffices). -/
def decimalDigitsAux : Nat → Nat → List Nat
  | 0, _ => []
  | fuel + 1, n => if n < 10 then [n] else decimalDigitsAux fuel (n / 10) ++ [n % 10]

def decimalDigits (n : Nat) : List Nat := decimalDigitsAux (n + 1) n

/-- Python's format `f"{i:05d}"` for a nonnegative value: the decimal digits
left-padded with zeros to width 5 (values of 100000 and above keep their full
width — the padding is fixed at 5). -/
def format05d (i : Nat) : List Nat :=
  List.replicate (5 - (decimalDigits i).length) 0 ++ decimalDigits i

/-- The code points of the chunk file name `f"chunk_{i:05d}"`.  Only
nonnegative indices are ever named here: `assemble_file` builds names for
`i in range(total_chunks)`. -/
def chunkName (i : Nat) : List Nat :=
  [99, 104, 117, 110, 107, 95] ++ (format05d i).map (fun d => 48 + d)

/-- Lexicographic code-point comparison — how Python orders the chunk file
paths (they share the directory and the `chunk_` prefix, so the file name
decides). -/
def lexLe : List Nat → List Nat → Bool
  | [], _ => true
  | _ :: _, [] => false
  | a :: as, b :: bs => if a < b then true else if b < a then false else lexLe as bs

/-- Insertion sort, modelling Python's `sorted` (the keys here are pairwise
distinct, so every comparison sort returns the same list). -/
def insertLe {α : Type} (le : α → α → Bool) (x : α) : List α → List α
  | [] => [x]
  | y :: ys => if le x y then x :: y :: ys else y :: insertLe le x ys

def sortLe {α : Type} (le : α → α → Bool) : List α → List α
  | [] => []
  | x :: xs => insertLe le x (sortLe le xs)

/-- `sorted([upload_dir / f"chunk_{i:05d}" for i in range(total_chunks)])`:
the chunk indices in the order in which their file names sort.  For
`total_chunks ≤ 100000` this is ascending index order
(`sortedChunkIndices_eq_range`); past 100000 the 6-digit names interleave
with the 5-digit ones, exactly as in the source. -/
def sortedChunkIndices (total : Nat) : List Nat :=
  sortLe (fun a b => lexLe (chunkName a) (chunkName b)) (List.range total)

/-- One chunked upload session: the metadata sidecar plus the chunk files. -/
structure Upload where
  filename : String
  fileSize : Nat
  totalChunks : Nat
  mimeType : Option String
  chunks : List (Int × Bytes)
deriving Repr, DecidableEq

namespace ChunkedUploadManager

/-- `ChunkedUploadManager.save_chunk`: write the chunk file and mark the index
received. -/
def save_chunk (u : Upload) (chunkNumber : Int) (chunkData : Bytes) : Upload :=
  { u with chunks := storeChunk u.chunks chunkNumber chunkData }

/-- `ChunkedUploadManager.get_received_chunks`: `len(self.chunks_received)`. -/
def get_received_chunks (u : Upload) : Nat := u.chunks.length

/-- `ChunkedUploadManager.get_progress`: 0 when `total_chunks` is falsy, else
`len(chunks_received) / total_chunks * 100`. -/
def get_progress (u : Upload) : Rat :=
  if u.totalChunks = 0 then 0
  else (get_received_chunks u : Rat) / (u.totalChunks : Rat) * 100

/-- `ChunkedUploadManager.is_complete`: `total_chunks` truthy and
`len(chunks_received) == total_chunks`. -/
def is_complete (u : Upload) : Bool :=
  u.totalChunks ≠ 0 && get_received_chunks u == u.totalChunks

/-- `ChunkedUploadManager._calculate_checksum`: SHA-256 of the file read in
4096-byte blocks; the incremental `update` over the blocks hashes their
concatenation, which is the file itself (`chunkList_flatten`). -/
def calculate_checksum (file : Bytes) : String :=
  SHA256.hexdigest ((SHA256.chunkList 4095 file).flatten)

/-- The bytes `assemble_file` writes: the chunk files named `chunk_{i:05d}`
for `i in range(total_chunks)`, read in the order in which the file names
sort and concatenated; `None` when the upload is incomplete or one of those
chunk files is missing. -/
def assembleBytes (u : Upload) : Option Bytes :=
  if is_complete u then
    ((sortedChunkIndices u.totalChunks).mapM
      (fun i : Nat => lookupChunk u.chunks (i : Int))).map List.flatten
  else none

/-- `ChunkedUploadManager.assemble_file`: `None` when incomplete or a chunk
file is missing, otherwise the assembled bytes and their checksum (the chunk
storage is then cleaned up — handled at the store level below). -/
def assemble_file (u : Upload) : Option (Bytes × String) :=
  (assembleBytes u).map (fun out => (out, calculate_checksum out))

end ChunkedUploadManager

/-- The uploads directory: upload id → session state
(`ChunkedUploadManager.load_upload` finds the session iff its directory
exists). -/
abbrev UploadStore := List (String × Upload)

def loadUpload : UploadStore → String → Option Upload
  | [], _ => none
  | e :: rest, uid => if e.1 = uid then some e.2 else loadUpload rest uid

def storeUpload : UploadStore → String → Upload → UploadStore
  | [], uid, u => [(uid, u)]
  | e :: rest, uid, u => if e.1 = uid then (uid, u) :: rest else e :: storeUpload rest uid u

/-- `shutil.rmtree(upload_dir)`: the session is gone afterwards. -/
def removeUpload : UploadStore → String → UploadStore
  | [], _ => []
  | e :: rest, uid => if e.1 = uid then removeUpload rest uid else e :: removeUpload rest uid

/-- Python exception classes raised by the upload service; the endpoints map
`ValueError` to HTTP 400 `VALIDATION_ERROR` and everything else to 500. -/
inductive PyError
  | valueError (msg : String)
  | runtimeError (msg : String)
deriving Repr, DecidableEq

namespace UploadService

/-- `UploadService.save_chunk`: load the session (404-style `ValueError` when
missing), reject `chunk_number >= total_chunks` when `total_chunks` is truthy
(the message interpolates the index; the constant text is kept), then store
the chunk and report `(chunks_received, progress)`. -/
def save_chunk (store : UploadStore) (uploadId : String) (chunkNumber : Int)
    (chunkData : Bytes) : Except PyError (UploadStore × Nat × Rat) :=
  match loadUpload store uploadId with
  | none => .error (.valueError ("Upload não encontrado: " ++ uploadId))
  | some m =>
    if 0 < m.totalChunks ∧ (m.totalChunks : Int) ≤ chunkNumber then
      .error (.valueError "Chunk número inválido")
    else
      let m1 := ChunkedUploadManager.save_chunk m chunkNumber chunkData
      .ok (storeUpload store uploadId m1,
           ChunkedUploadManager.get_received_chunks m1,
           ChunkedUploadManager.get_progress m1)

/-- `UploadService.complete_upload`: load the session, require completeness,
assemble (which also deletes the chunk storage) and return the written file's
bytes with their checksum. -/
def complete_upload (store : UploadStore) (uploadId : String) :
    Except PyError (UploadStore × Bytes × String) :=
  match loadUpload store uploadId with
  | none => .error (.valueError ("Upload não encontrado: " ++ uploadId))
  | some m =>
    if ChunkedUploadManager.is_complete m then
      match ChunkedUploadManager.assemble_file m with
      | none => .error (.runtimeError "Falha ao montar arquivo")
      | some r => .ok (removeUpload store uploadId, r.1, r.2)
    else .error (.valueError "Upload incompleto")

end UploadService

/-- `AnalysisService.create_analysis_from_upload`, restricted to its upload
protocol part: `get_upload_status` must find a complete session (otherwise
`ValueError "Upload incompleto"`), then the upload is finalized via
`UploadService.complete_upload`.  The database records it then creates are
modelled in the pipeline section. -/
def createAnalysisFromUpload (store : UploadStore) (uploadId : String) :
    Except PyError (UploadStore × Bytes × String) :=
  match loadUpload store uploadId with
  | none => .error (.valueError "Upload incompleto")
  | some m =>
    if ChunkedUploadManager.is_complete m then
      UploadService.complete_upload store uploadId
    else .error (.valueError "Upload incompleto")

/-- Outcome of `POST /upload/complete/{upload_id}`. -/
inductive CompleteHttp
  | ok (store : UploadStore) (fileBytes : Bytes) (checksum : String)
  | httpError (statusCode : Nat) (errorCode : String)
deriving Repr, DecidableEq

/-- The `complete_upload` endpoint: `ValueError` is surfaced as HTTP 400 with
error code `VALIDATION_ERROR`; any other exception as HTTP 500
`INTERNAL_ERROR`. -/
def completeUploadEndpoint (store : UploadStore) (uploadId : String) : CompleteHttp :=
  match createAnalysisFromUpload store uploadId with
  | .ok (s, b, c) => .ok s b c
  | .error (.valueError _) => .httpError 400 "VALIDATION_ERROR"
  | .error (.runtimeError _) => .httpError 500 "INTERNAL_ERROR"

/-- A client session: deliver a sequence of chunks (in arbitrary order) through
`UploadService.save_chunk`. -/
def applyArrivals : UploadStore → String → List (Int × Bytes) → Except PyError UploadStore
  | store, _, [] => .ok store
  | store, uid, a :: rest =>
    match UploadService.save_chunk store uid a.1 a.2 with
    | .ok r => applyArrivals r.1 uid rest
    | .error e => .error e

/-- Specification-side description of "the stored bytes for index `i`": the
last chunk delivered for that index, if any. -/
def lastWrite : List (Int × Bytes) → Int → Option Bytes
  | [], _ => none
  | a :: rest, i => (lastWrite rest i).or (if a.1 = i then some a.2 else none)

/-! ### Chunk-map lemmas -/

def chunkKeys (cs : List (Int × Bytes)) : List Int := cs.map (·.1)

theorem lookupChunk_storeChunk (cs : List (Int × Bytes)) (k : Int) (b : Bytes) (i : Int) :
    lookupChunk (storeChunk cs k b) i = if k = i then some b else lookupChunk cs i := by
  induction cs with
  | nil => simp [storeChunk, lookupChunk]
  | cons c rest ih =>
    by_cases hck : c.1 = k
    · simp only [storeChunk, if_pos hck, lookupChunk]
      by_cases hki : k = i
      · simp [hki]
      · simp [hki, lookupChunk, hck.symm ▸ hki]
    · simp only [storeChunk, if_neg hck, lookupChunk]
      by_cases hci : c.1 = i
      · have : ¬ k = i := fun h => hck (h ▸ hci)
        simp [hci, this]
      · simp [hci, ih]

theorem storeChunk_storeChunk_same (cs : List (Int × Bytes)) (k : Int) (b1 b2 : Bytes) :
    storeChunk (storeChunk cs k b1) k b2 = storeChunk cs k b2 := by
  induction cs with
  | nil => simp [storeChunk]
  | cons c rest ih =>
    by_cases hck : c.1 = k
    · simp [storeChunk, hck]
    · simp [storeChunk, hck, ih]

theorem chunkKeys_storeChunk (cs : List (Int × Bytes)) (k : Int) (b : Bytes) :
    chunkKeys (storeChunk cs k b) =
      if k ∈ chunkKeys cs then chunkKeys cs else chunkKeys cs ++ [k] := by
  induction cs with
  | nil => simp [storeChunk, chunkKeys]
  | cons c rest ih =>
    by_cases hck : c.1 = k
    · simp [storeChunk, hck, chunkKeys]
    · have hne : ¬ k = c.1 := fun h => hck h.symm
      have hcons : chunkKeys (c :: storeChunk rest k b) = c.1 :: chunkKeys (storeChunk rest k b) := rfl
      have hcons2 : chunkKeys (c :: rest) = c.1 :: chunkKeys rest := rfl
      simp only [storeChunk, if_neg hck]
      rw [hcons, hcons2, ih]
      by_cases hmem : k ∈ chunkKeys rest
      · rw [if_pos hmem, if_pos (List.mem_cons_of_mem _ hmem)]
      · rw [if_neg hmem,
          if_neg (fun h => (List.mem_cons.mp h).elim hne hmem)]
        simp

theorem length_storeChunk (cs : List (Int × Bytes)) (k : Int) (b : Bytes) :
    (storeChunk cs k b).length =
      if k ∈ chunkKeys cs then cs.length else cs.length + 1 := by
  have h1 : (storeChunk cs k b).length = (chunkKeys (storeChunk cs k b)).length := by
    simp [chunkKeys]
  have h2 : cs.length = (chunkKeys cs).length := by simp [chunkKeys]
  rw [h1, chunkKeys_storeChunk, h2]
  by_cases hmem : k ∈ chunkKeys cs <;> simp [hmem]

theorem nodup_chunkKeys_storeChunk (cs : List (Int × Bytes)) (k : Int) (b : Bytes)
    (h : (chunkKeys cs).Nodup) : (chunkKeys (storeChunk cs k b)).Nodup := by
  rw [chunkKeys_storeChunk]
  by_cases hmem : k ∈ chunkKeys cs
  · simpa [hmem]
  · simpa [hmem] using List.Nodup.append h (List.nodup_singleton k) (by simpa using hmem)

theorem mem_chunkKeys_iff_lookup (cs : List (Int × Bytes)) (i : Int) :
    i ∈ chunkKeys cs ↔ lookupChunk cs i ≠ none := by
  induction cs with
  | nil => simp [chunkKeys, lookupChunk]
  | cons c rest ih =>
    have hcons : chunkKeys (c :: rest) = c.1 :: chunkKeys rest := rfl
    rw [hcons, List.mem_cons]
    by_cases hci : c.1 = i
    · simp [lookupChunk, hci]
    · have hic : ¬ i = c.1 := fun h => hci h.symm
      simp only [lookupChunk, if_neg hci, hic, false_or]
      exact ih

/-- The chunk map after a whole delivery sequence resolves each index to the
last chunk delivered for it. -/
theorem lookup_foldStore (arr : List (Int × Bytes)) :
    ∀ (cs : List (Int × Bytes)) (i : Int),
      lookupChunk (arr.foldl (fun cs a => storeChunk cs a.1 a.2) cs) i =
        (lastWrite arr i).or (lookupChunk cs i) := by
  induction arr with
  | nil => intro cs i; simp [lastWrite]
  | cons a rest ih =>
    intro cs i
    simp only [List.foldl_cons, lastWrite]
    rw [ih, Option.or_assoc]
    congr 1
    rw [lookupChunk_storeChunk]
    by_cases h : a.1 = i <;> simp [h]

theorem lastWrite_eq_none_iff (arr : List (Int × Bytes)) (i : Int) :
    lastWrite arr i = none ↔ ∀ p ∈ arr, p.1 ≠ i := by
  induction arr with
  | nil => simp [lastWrite]
  | cons a rest ih =>
    simp only [lastWrite, Option.or_eq_none, ih, List.mem_cons]
    constructor
    · rintro ⟨h1, h2⟩ p hp
      rcases hp with hp | hp
      · subst hp
        intro hh
        rw [if_pos hh] at h2
        cases h2
      · exact h1 p hp
    · intro h
      refine ⟨fun p hp => h p (Or.inr hp), ?_⟩
      rw [if_neg (h a (Or.inl rfl))]

theorem nodup_chunkKeys_foldStore (arr : List (Int × Bytes)) :
    ∀ cs : List (Int × Bytes), (chunkKeys cs).Nodup →
      (chunkKeys (arr.foldl (fun cs a => storeChunk cs a.1 a.2) cs)).Nodup := by
  induction arr with
  | nil => intro cs h; simpa
  | cons a rest ih =>
    intro cs h
    exact ih _ (nodup_chunkKeys_storeChunk cs a.1 a.2 h)

theorem mem_chunkKeys_storeChunk_self (cs : List (Int × Bytes)) (k : Int) (b : Bytes) :
    k ∈ chunkKeys (storeChunk cs k b) := by
  rw [chunkKeys_storeChunk]
  by_cases hmem : k ∈ chunkKeys cs <;> simp [hmem]

/-! ### The file-name sort

For `total_chunks ≤ 100000` every chunk file name `chunk_{i:05d}` is exactly
five digits wide, and lexicographic order on equal-width decimal strings is
numeric order, so the sorted name list visits the indices in ascending
order. -/

theorem decimalDigitsAux_congr (fuel : Nat) :
    ∀ n, n < fuel → decimalDigitsAux fuel n = decimalDigits n := by
  induction fuel using Nat.strong_induction_on with
  | _ fuel ih =>
    match fuel with
    | 0 => exact fun n h => absurd h (by omega)
    | f + 1 =>
      intro n h
      by_cases h10 : n < 10
      · simp [decimalDigitsAux, decimalDigits, h10]
      · have hL : decimalDigitsAux (f + 1) n = decimalDigitsAux f (n / 10) ++ [n % 10] := by
          simp [decimalDigitsAux, h10]
        have hR : decimalDigits n = decimalDigitsAux n (n / 10) ++ [n % 10] := by
          simp [decimalDigits, decimalDigitsAux, h10]
        rw [hL, hR, ih f (by omega) (n / 10) (by omega), ih n (by omega) (n / 10) (by omega)]

theorem decimalDigits_unfold (n : Nat) :
    decimalDigits n = if n < 10 then [n] else decimalDigits (n / 10) ++ [n % 10] := by
  by_cases h10 : n < 10
  · simp [decimalDigits, decimalDigitsAux, h10]
  · have hR : decimalDigits n = decimalDigitsAux n (n / 10) ++ [n % 10] := by
      simp [decimalDigits, decimalDigitsAux, h10]
    rw [hR, decimalDigitsAux_congr n (n / 10) (by omega), if_neg h10]

theorem decimalDigits_d1 (a : Nat) (h : a < 10) : decimalDigits a = [a] := by
  rw [decimalDigits_unfold, if_pos h]

theorem decimalDigits_d2 (a : Nat) (h1 : 10 ≤ a) (h2 : a < 100) :
    decimalDigits a = [a / 10, a % 10] := by
  rw [decimalDigits_unfold, if_neg (by omega), decimalDigits_d1 (a / 10) (by omega)]
  rfl

theorem decimalDigits_d3 (a : Nat) (h1 : 100 ≤ a) (h2 : a < 1000) :
    decimalDigits a = [a / 100, a / 10 % 10, a % 10] := by
  rw [decimalDigits_unfold, if_neg (by omega),
    decimalDigits_d2 (a / 10) (by omega) (by omega)]
  simp [List.cons.injEq]
  omega

theorem decimalDigits_d4 (a : Nat) (h1 : 1000 ≤ a) (h2 : a < 10000) :
    decimalDigits a = [a / 1000, a / 100 % 10, a / 10 % 10, a % 10] := by
  rw [decimalDigits_unfold, if_neg (by omega),
    decimalDigits_d3 (a / 10) (by omega) (by omega)]
  simp [List.cons.injEq]
  omega

theorem decimalDigits_d5 (a : Nat) (h1 : 10000 ≤ a) (h2 : a < 100000) :
    decimalDigits a = [a / 10000, a / 1000 % 10, a / 100 % 10, a / 10 % 10, a % 10] := by
  rw [decimalDigits_unfold, if_neg (by omega),
    decimalDigits_d4 (a / 10) (by omega) (by omega)]
  simp [List.cons.injEq]
  omega

theorem format05d_eq (a : Nat) (h : a < 100000) :
    format05d a = [a / 10000 % 10, a / 1000 % 10, a / 100 % 10, a / 10 % 10, a % 10] := by
  unfold format05d
  rcases Nat.lt_or_ge a 10 with h1 | h1
  · rw [decimalDigits_d1 a h1]
    simp [List.cons.injEq]
    omega
  · rcases Nat.lt_or_ge a 100 with h2 | h2
    · rw [decimalDigits_d2 a h1 h2]
      simp [List.cons.injEq]
      omega
    · rcases Nat.lt_or_ge a 1000 with h3 | h3
      · rw [decimalDigits_d3 a h2 h3]
        simp [List.cons.injEq]
        omega
      · rcases Nat.lt_or_ge a 10000 with h4 | h4
        · rw [decimalDigits_d4 a h3 h4]
          simp [List.cons.injEq]
          omega
        · rw [decimalDigits_d5 a h4 h]
          simp [List.cons.injEq]
          omega

theorem lexLe_cons_same (c : Nat) (x y : List Nat) :
    lexLe (c :: x) (c :: y) = lexLe x y := by
  simp [lexLe]

set_option maxHeartbeats 2000000 in
theorem lexLe_chunkName (a b : Nat) (ha : a < 100000) (hb : b < 100000) (hab : a ≤ b) :
    lexLe (chunkName a) (chunkName b) = true := by
  unfold chunkName
  simp only [List.cons_append, List.nil_append, lexLe_cons_same]
  rw [format05d_eq a ha, format05d_eq b hb]
  simp only [List.map_cons, List.map_nil]
  simp only [lexLe]
  split_ifs <;> first | rfl | omega

theorem insertLe_of_head {α : Type} (le : α → α → Bool) (x : α) (l : List α)
    (h : ∀ y ∈ l, le x y = true) : insertLe le x l = x :: l := by
  cases l with
  | nil => rfl
  | cons y ys => simp [insertLe, h y (List.mem_cons_self y ys)]

theorem sortLe_of_pairwise {α : Type} (le : α → α → Bool) :
    ∀ l : List α, l.Pairwise (fun a b => le a b = true) → sortLe le l = l := by
  intro l
  induction l with
  | nil => intro _; rfl
  | cons x xs ih =>
    intro hp
    rw [List.pairwise_cons] at hp
    simp only [sortLe]
    rw [ih hp.2, insertLe_of_head le x xs hp.1]

/-- Below 100000 chunks the zero-padded file names sort in ascending index
order, so `assemble_file` reads the chunks in index order. -/
theorem sortedChunkIndices_eq_range (total : Nat) (h : total ≤ 100000) :
    sortedChunkIndices total = List.range total := by
  apply sortLe_of_pairwise
  refine (List.pairwise_lt_range total).imp_of_mem ?_
  intro a b hma hmb hlt
  exact lexLe_chunkName a b (by have := List.mem_range.mp hma; omega)
    (by have := List.mem_range.mp hmb; omega) (Nat.le_of_lt hlt)

namespace Settings

/-- `Settings.CHUNK_SIZE` (bytes; 5 MiB). -/
def CHUNK_SIZE : Nat := 5242880

/-- `Settings.MAX_FILE_SIZE` (bytes; 10 GiB). -/
def MAX_FILE_SIZE : Nat := 10737418240

end Settings

/-- `UploadService.init_upload` computes
`total_chunks = (file_size + chunk_size - 1) // chunk_size` after validating
`0 < file_size <= MAX_FILE_SIZE`. -/
def initTotalChunks (fileSize : Nat) : Nat :=
  (fileSize + Settings.CHUNK_SIZE - 1) / Settings.CHUNK_SIZE

/-- Every upload the service creates has at most 2048 chunks — far below the
100000 at which the fixed-width names would stop sorting in index order, so
the bound assumed by the claim C3 theorem holds for every upload the system
can create. -/
theorem initTotalChunks_le (fileSize : Nat) (h : fileSize ≤ Settings.MAX_FILE_SIZE) :
    initTotalChunks fileSize ≤ 100000 := by
  simp only [initTotalChunks, Settings.CHUNK_SIZE, Settings.MAX_FILE_SIZE] at h ⊢
  omega

/-! ### Store-level lemmas -/

theorem loadUpload_storeUpload (store : UploadStore) (uid : String) (u : Upload) :
    loadUpload (storeUpload store uid u) uid = some u := by
  induction store with
  | nil => simp [storeUpload, loadUpload]
  | cons e rest ih =>
    by_cases h : e.1 = uid
    · simp [storeUpload, h, loadUpload]
    · simp [storeUpload, h, loadUpload, ih]

theorem storeUpload_storeUpload_same (store : UploadStore) (uid : String) (u1 u2 : Upload) :
    storeUpload (storeUpload store uid u1) uid u2 = storeUpload store uid u2 := by
  induction store with
  | nil => simp [storeUpload]
  | cons e rest ih =>
    by_cases h : e.1 = uid
    · simp [storeUpload, h]
    · simp [storeUpload, h, ih]

theorem loadUpload_removeUpload (store : UploadStore) (uid : String) :
    loadUpload (removeUpload store uid) uid = none := by
  induction store with
  | nil => simp [removeUpload, loadUpload]
  | cons e rest ih =>
    by_cases h : e.1 = uid
    · simp [removeUpload, h, ih]
    · simp [removeUpload, h, loadUpload, ih]

/-- Delivering a sequence of in-range chunks always succeeds and leaves the
session's chunk map as the fold of the writes. -/
theorem applyArrivals_ok (uid : String) (arr : List (Int × Bytes)) :
    ∀ (store : UploadStore) (m : Upload),
      loadUpload store uid = some m →
      (∀ a ∈ arr, a.1 < (m.totalChunks : Int)) →
      ∃ s1, applyArrivals store uid arr = .ok s1 ∧
        loadUpload s1 uid =
          some { m with chunks := arr.foldl (fun cs a => storeChunk cs a.1 a.2) m.chunks } := by
  induction arr with
  | nil =>
    intro store m hload _
    exact ⟨store, rfl, by simpa using hload⟩
  | cons a rest ih =>
    intro store m hload hvalid
    have hrange : ¬ (0 < m.totalChunks ∧ (m.totalChunks : Int) ≤ a.1) := by
      rintro ⟨-, hle⟩
      exact absurd (hvalid a (List.mem_cons_self a rest)) (not_lt.mpr hle)
    have hstep : UploadService.save_chunk store uid a.1 a.2 =
        .ok (storeUpload store uid (ChunkedUploadManager.save_chunk m a.1 a.2),
             ChunkedUploadManager.get_received_chunks (ChunkedUploadManager.save_chunk m a.1 a.2),
             ChunkedUploadManager.get_progress (ChunkedUploadManager.save_chunk m a.1 a.2)) := by
      simp [UploadService.save_chunk, hload, hrange]
    have hload1 : loadUpload (storeUpload store uid (ChunkedUploadManager.save_chunk m a.1 a.2)) uid
        = some (ChunkedUploadManager.save_chunk m a.1 a.2) := loadUpload_storeUpload _ _ _
    obtain ⟨s1, h1, h2⟩ := ih (storeUpload store uid (ChunkedUploadManager.save_chunk m a.1 a.2))
      (ChunkedUploadManager.save_chunk m a.1 a.2) hload1
      (fun x hx => hvalid x (List.mem_cons_of_mem a hx))
    refine ⟨s1, ?_, ?_⟩
    · simp only [applyArrivals, hstep]
      exact h1
    · simpa [ChunkedUploadManager.save_chunk] using h2

theorem mapM_opt {α β : Type} (g : α → Option β) (f : α → β) :
    ∀ l : List α, (∀ x ∈ l, g x = some (f x)) → l.mapM g = some (l.map f) := by
  intro l
  induction l with
  | nil => intro _; rfl
  | cons x xs ih =>
    intro h
    rw [List.mapM_cons, h x (List.mem_cons_self x xs),
      ih (fun y hy => h y (List.mem_cons_of_mem x hy))]
    rfl

/-- After a delivery sequence whose indices are valid and cover
`[0, total)`, the chunk map holds exactly `total` chunk files. -/
theorem length_foldStore_of_cover
    (arr : List (Int × Bytes)) (total : Nat)
    (hvalid : ∀ a ∈ arr, 0 ≤ a.1 ∧ a.1 < (total : Int))
    (hcover : ∀ i : Nat, i < total → ∃ p ∈ arr, p.1 = (i : Int)) :
    (arr.foldl (fun cs a => storeChunk cs a.1 a.2) []).length = total := by
  set F := arr.foldl (fun cs a => storeChunk cs a.1 a.2) ([] : List (Int × Bytes)) with hF
  have hnodupK : (chunkKeys F).Nodup := nodup_chunkKeys_foldStore arr [] (by simp [chunkKeys])
  have hlookup : ∀ i, lookupChunk F i = lastWrite arr i := by
    intro i
    rw [hF, lookup_foldStore]
    simp [lookupChunk]
  have hmem : ∀ i, i ∈ chunkKeys F ↔ ∃ p ∈ arr, p.1 = i := by
    intro i
    rw [mem_chunkKeys_iff_lookup, hlookup]
    constructor
    · intro h
      by_contra hno
      push_neg at hno
      exact h ((lastWrite_eq_none_iff arr i).mpr hno)
    · rintro ⟨p, hp, hpi⟩ hnone
      exact (lastWrite_eq_none_iff arr i).mp hnone p hp hpi
  have hnodupL : ((List.range total).map (fun n : Nat => (n : Int))).Nodup :=
    (List.nodup_range total).map Nat.cast_injective
  have hiff : ∀ x : Int,
      x ∈ chunkKeys F ↔ x ∈ (List.range total).map (fun n : Nat => (n : Int)) := by
    intro x
    rw [hmem x, List.mem_map]
    constructor
    · rintro ⟨p, hp, hpx⟩
      obtain ⟨h0, hlt⟩ := hvalid p hp
      rw [hpx] at h0 hlt
      refine ⟨x.toNat, List.mem_range.mpr (by omega), by omega⟩
    · rintro ⟨n, hn, rfl⟩
      exact hcover n (List.mem_range.mp hn)
  have hlen := ((List.perm_ext_iff_of_nodup hnodupK hnodupL).mpr hiff).length_eq
  have : (chunkKeys F).length = F.length := by simp [chunkKeys]
  rw [this] at hlen
  simpa using hlen

/-- The concatenation, in ascending index order, of the bytes stored for each
chunk index after the delivery sequence `arr` (last write per index wins). -/
def assembledOf (arr : List (Int × Bytes)) (total : Nat) : Bytes :=
  ((List.range total).map (fun i : Nat => (lastWrite arr (i : Int)).getD [])).flatten

/-- Claim C3: for every upload whose chunks for all indices in
`[0, total_chunks)` have been received, in any arrival order, `complete`
succeeds and the SHA-256 checksum it returns equals the SHA-256 of the
concatenation of the stored chunk bytes in ascending index order — which is
also the checksum of the file it writes (the returned file bytes are that
concatenation).  The bound `total_chunks ≤ 100000` keeps the lexicographic
sort of the zero-padded chunk file names in index order; every upload the
service creates satisfies it, with at most 2048 chunks
(`initTotalChunks_le`). -/
theorem complete_returns_checksum_of_concatenation
    (store : UploadStore) (uid : String) (m : Upload) (arr : List (Int × Bytes))
    (hload : loadUpload store uid = some m)
    (hfresh : m.chunks = [])
    (hpos : 0 < m.totalChunks)
    (hbound : m.totalChunks ≤ 100000)
    (hvalid : ∀ a ∈ arr, 0 ≤ a.1 ∧ a.1 < (m.totalChunks : Int))
    (hcover : ∀ i : Nat, i < m.totalChunks → ∃ p ∈ arr, p.1 = (i : Int)) :
    ∃ s1 s2,
      applyArrivals store uid arr = .ok s1 ∧
      UploadService.complete_upload s1 uid =
        .ok (s2, assembledOf arr m.totalChunks,
             SHA256.hexdigest (assembledOf arr m.totalChunks)) := by
  obtain ⟨s1, h1, h2⟩ := applyArrivals_ok uid arr store m hload (fun a ha => (hvalid a ha).2)
  rw [hfresh] at h2
  set m1 : Upload :=
    { m with chunks := arr.foldl (fun cs a => storeChunk cs a.1 a.2) [] } with hm1
  have hlen : m1.chunks.length = m.totalChunks :=
    length_foldStore_of_cover arr m.totalChunks hvalid hcover
  have hcompl : ChunkedUploadManager.is_complete m1 = true := by
    simp [ChunkedUploadManager.is_complete, ChunkedUploadManager.get_received_chunks, hlen,
      Nat.pos_iff_ne_zero.mp hpos]
  have hlook : ∀ i : Nat, i < m.totalChunks →
      lookupChunk m1.chunks (i : Int) = some ((lastWrite arr (i : Int)).getD []) := by
    intro i hi
    have : lookupChunk m1.chunks (i : Int) = lastWrite arr (i : Int) := by
      rw [hm1]
      rw [lookup_foldStore]
      simp [lookupChunk]
    rw [this]
    obtain ⟨p, hp, hpi⟩ := hcover i hi
    cases hlw : lastWrite arr (i : Int) with
    | none => exact absurd hpi ((lastWrite_eq_none_iff arr (i : Int)).mp hlw p hp)
    | some v => rfl
  have hmapM : (List.range m1.totalChunks).mapM
        (fun i : Nat => lookupChunk m1.chunks (i : Int)) =
      some ((List.range m.totalChunks).map
        (fun i : Nat => (lastWrite arr (i : Int)).getD [])) :=
    mapM_opt _ _ _ (fun x hx => hlook x (List.mem_range.mp hx))
  have hasm : ChunkedUploadManager.assemble_file m1 =
      some (assembledOf arr m.totalChunks,
            SHA256.hexdigest (assembledOf arr m.totalChunks)) := by
    unfold ChunkedUploadManager.assemble_file ChunkedUploadManager.assembleBytes
    rw [hcompl]
    rw [if_pos rfl, sortedChunkIndices_eq_range m1.totalChunks (by exact hbound), hmapM]
    simp [assembledOf, ChunkedUploadManager.calculate_checksum, SHA256.chunkList_flatten]
  refine ⟨s1, removeUpload s1 uid, h1, ?_⟩
  simp only [UploadService.complete_upload, h2, hcompl, hasm, if_true]

/-- A fresh two-chunk upload session, used to instantiate the claim C3
theorem. -/
def uploadW3 : Upload :=
  { filename := "v.mp4", fileSize := 3, totalChunks := 2,
    mimeType := some "video/mp4", chunks := [] }

/-- Claim C3 witness: a two-chunk upload delivered out of order. -/
theorem complete_returns_checksum_of_concatenation_witness :
    ∃ s1 s2,
      applyArrivals [("u1", uploadW3)] "u1"
        [((1 : Int), [5]), ((0 : Int), [9, 9])] = .ok s1 ∧
      UploadService.complete_upload s1 "u1" =
        .ok (s2, assembledOf [((1 : Int), [5]), ((0 : Int), [9, 9])] uploadW3.totalChunks,
             SHA256.hexdigest
               (assembledOf [((1 : Int), [5]), ((0 : Int), [9, 9])] uploadW3.totalChunks)) :=
  complete_returns_checksum_of_concatenation [("u1", uploadW3)] "u1" uploadW3
    [((1 : Int), [5]), ((0 : Int), [9, 9])] rfl rfl (by decide) (by decide) (by decide)
    (by decide)

/-- Claim C4: chunk writes are idempotent — `put_chunk(k, b1)` followed by
`put_chunk(k, b2)` leaves the received-chunk count unchanged by the second
call, and the resulting session (hence any assembled file) is identical to the
one produced had only `put_chunk(k, b2)` been sent for that index. -/
theorem save_chunk_idempotent
    (store : UploadStore) (uid : String) (m : Upload) (k : Int) (b1 b2 : Bytes)
    (hload : loadUpload store uid = some m)
    (h0 : 0 ≤ k) (hk : k < (m.totalChunks : Int)) :
    ∃ s1 n1 p1,
      UploadService.save_chunk store uid k b1 = .ok (s1, n1, p1) ∧
      ∃ n2 p2,
        UploadService.save_chunk s1 uid k b2 =
          .ok (storeUpload store uid (ChunkedUploadManager.save_chunk m k b2), n2, p2) ∧
        n2 = n1 ∧
        UploadService.save_chunk store uid k b2 =
          .ok (storeUpload store uid (ChunkedUploadManager.save_chunk m k b2), n2, p2) := by
  have hrange : ¬ (0 < m.totalChunks ∧ (m.totalChunks : Int) ≤ k) := by
    rintro ⟨-, hle⟩
    omega
  set m1 := ChunkedUploadManager.save_chunk m k b1 with hm1def
  set m2 := ChunkedUploadManager.save_chunk m k b2 with hm2def
  have hchunks : ChunkedUploadManager.save_chunk m1 k b2 = m2 := by
    simp [hm1def, hm2def, ChunkedUploadManager.save_chunk, storeChunk_storeChunk_same]
  have h1 : UploadService.save_chunk store uid k b1 =
      .ok (storeUpload store uid m1, m1.chunks.length,
           ChunkedUploadManager.get_progress m1) := by
    simp [UploadService.save_chunk, hload, hrange, ChunkedUploadManager.get_received_chunks]
  have hload1 : loadUpload (storeUpload store uid m1) uid = some m1 :=
    loadUpload_storeUpload _ _ _
  have hrange1 : ¬ (0 < m1.totalChunks ∧ (m1.totalChunks : Int) ≤ k) := by
    simpa [hm1def, ChunkedUploadManager.save_chunk] using hrange
  have h2 : UploadService.save_chunk (storeUpload store uid m1) uid k b2 =
      .ok (storeUpload store uid m2, m2.chunks.length,
           ChunkedUploadManager.get_progress m2) := by
    simp only [UploadService.save_chunk, hload1, hrange1, if_neg, hchunks,
      ChunkedUploadManager.get_received_chunks, storeUpload_storeUpload_same]
    simp [hrange1]
  have hcount : m2.chunks.length = m1.chunks.length := by
    simp only [hm1def, hm2def, ChunkedUploadManager.save_chunk]
    rw [length_storeChunk, length_storeChunk]
  have h3 : UploadService.save_chunk store uid k b2 =
      .ok (storeUpload store uid m2, m2.chunks.length,
           ChunkedUploadManager.get_progress m2) := by
    simp [UploadService.save_chunk, hload, hrange, ChunkedUploadManager.get_received_chunks]
  exact ⟨_, _, _, h1, _, _, h2, hcount, h3⟩

/-- A fresh two-chunk upload session, used to instantiate the claim C4
theorem. -/
def uploadW4 : Upload :=
  { filename := "v.mp4", fileSize := 6, totalChunks := 2,
    mimeType := some "video/mp4", chunks := [] }

/-- Claim C4 witness: overwriting index 0 on a concrete session. -/
theorem save_chunk_idempotent_witness :
    ∃ s1 n1 p1,
      UploadService.save_chunk [("u1", uploadW4)] "u1" 0 [1] = .ok (s1, n1, p1) ∧
      ∃ n2 p2,
        UploadService.save_chunk s1 "u1" 0 [2, 2] =
          .ok (storeUpload [("u1", uploadW4)] "u1"
                 (ChunkedUploadManager.save_chunk uploadW4 0 [2, 2]), n2, p2) ∧
        n2 = n1 ∧
        UploadService.save_chunk [("u1", uploadW4)] "u1" 0 [2, 2] =
          .ok (storeUpload [("u1", uploadW4)] "u1"
                 (ChunkedUploadManager.save_chunk uploadW4 0 [2, 2]), n2, p2) :=
  save_chunk_idempotent [("u1", uploadW4)] "u1" uploadW4 0 [1] [2, 2] rfl
    (by decide) (by decide)

/-- Claim C8 (amended): `save_chunk` rejects every index `k ≥ total_chunks`
with a `ValueError` and stores nothing, but accepts every negative index,
storing the chunk under that index (the range check is only
`chunk_number >= total_chunks`). -/
theorem save_chunk_index_validation
    (store : UploadStore) (uid : String) (m : Upload) (k : Int) (b : Bytes)
    (hload : loadUpload store uid = some m)
    (hpos : 0 < m.totalChunks) :
    ((m.totalChunks : Int) ≤ k →
      UploadService.save_chunk store uid k b =
        .error (.valueError "Chunk número inválido")) ∧
    (k < 0 →
      UploadService.save_chunk store uid k b =
        .ok (storeUpload store uid (ChunkedUploadManager.save_chunk m k b),
             ChunkedUploadManager.get_received_chunks (ChunkedUploadManager.save_chunk m k b),
             ChunkedUploadManager.get_progress (ChunkedUploadManager.save_chunk m k b)) ∧
      lookupChunk (ChunkedUploadManager.save_chunk m k b).chunks k = some b) := by
  constructor
  · intro hge
    simp [UploadService.save_chunk, hload, hpos, hge]
  · intro hneg
    have hrange : ¬ (0 < m.totalChunks ∧ (m.totalChunks : Int) ≤ k) := by
      rintro ⟨-, hle⟩
      omega
    refine ⟨by simp [UploadService.save_chunk, hload, hrange], ?_⟩
    simp [ChunkedUploadManager.save_chunk, lookupChunk_storeChunk]

/-- A fresh two-chunk upload session, used to instantiate the claim C8
theorem. -/
def uploadW8 : Upload :=
  { filename := "v.mp4", fileSize := 6, totalChunks := 2,
    mimeType := some "video/mp4", chunks := [] }

/-- Claim C8 witness: index 2 (= total_chunks) is rejected; index −1 is
accepted and stored. -/
theorem save_chunk_index_validation_witness :
    (UploadService.save_chunk [("u1", uploadW8)] "u1" 2 [7] =
      .error (.valueError "Chunk número inválido")) ∧
    (UploadService.save_chunk [("u1", uploadW8)] "u1" (-1) [7] =
        .ok (storeUpload [("u1", uploadW8)] "u1"
               (ChunkedUploadManager.save_chunk uploadW8 (-1) [7]),
             ChunkedUploadManager.get_received_chunks
               (ChunkedUploadManager.save_chunk uploadW8 (-1) [7]),
             ChunkedUploadManager.get_progress
               (ChunkedUploadManager.save_chunk uploadW8 (-1) [7])) ∧
      lookupChunk (ChunkedUploadManager.save_chunk uploadW8 (-1) [7]).chunks (-1) = some [7]) :=
  ⟨(save_chunk_index_validation [("u1", uploadW8)] "u1" uploadW8 2 [7] rfl
      (by decide)).1 (by decide),
   (save_chunk_index_validation [("u1", uploadW8)] "u1" uploadW8 (-1) [7] rfl
      (by decide)).2 (by decide)⟩

/-- Claim C8 counterexample: contrary to the claim, the negative index −1 is
not rejected — the chunk is accepted and stored. -/
theorem save_chunk_negative_index_not_rejected :
    ∃ r, UploadService.save_chunk
        [("u1", { filename := "v.mp4", fileSize := 6, totalChunks := 2,
                  mimeType := some "video/mp4", chunks := [] })] "u1" (-1) [7] = .ok r ∧
      ∃ u, loadUpload r.1 "u1" = some u ∧ lookupChunk u.chunks (-1) = some [7] := by
  exact ⟨_, rfl, _, rfl, rfl⟩

/-- Projection of the HTTP status of a `complete` endpoint outcome. -/
def CompleteHttp.httpStatus : CompleteHttp → Option Nat
  | .ok _ _ _ => none
  | .httpError s _ => some s

/-- Claim C9 (amended): after a successful `complete` the upload's chunk
storage is deleted, and a second `complete` call on the same `upload_id`
fails — but as a `ValueError` ("Upload incompleto" on the endpoint path)
surfaced as HTTP 400 `VALIDATION_ERROR`, not as a 404 NotFound. -/
theorem duplicate_complete_validation_error
    (store : UploadStore) (uid : String) (s : UploadStore) (out : Bytes) (c : String)
    (h : UploadService.complete_upload store uid = .ok (s, out, c)) :
    loadUpload s uid = none ∧
    createAnalysisFromUpload s uid = .error (.valueError "Upload incompleto") ∧
    completeUploadEndpoint s uid = .httpError 400 "VALIDATION_ERROR" := by
  have hs : s = removeUpload store uid := by
    unfold UploadService.complete_upload at h
    cases hl : loadUpload store uid with
    | none => rw [hl] at h; cases h
    | some m =>
      rw [hl] at h
      cases hc : ChunkedUploadManager.is_complete m with
      | false => simp [hc] at h
      | true =>
        simp only [hc, if_true] at h
        cases ha : ChunkedUploadManager.assemble_file m with
        | none => rw [ha] at h; cases h
        | some r =>
          rw [ha] at h
          injection h with h
          exact (congrArg Prod.fst h).symm
  have h1 : loadUpload s uid = none := by
    rw [hs]
    exact loadUpload_removeUpload store uid
  refine ⟨h1, ?_, ?_⟩
  · simp [createAnalysisFromUpload, h1]
  · simp [completeUploadEndpoint, createAnalysisFromUpload, h1]

/-- A finished one-chunk upload session, used for the claim C9 witness and
counterexample. -/
def uploadW9 : Upload :=
  { filename := "v.mp4", fileSize := 3, totalChunks := 1,
    mimeType := some "video/mp4", chunks := [((0 : Int), [1, 2, 3])] }

/-- Claim C9 witness: the amended claim at a concrete finished upload. -/
theorem duplicate_complete_validation_error_witness :
    ∃ s out c,
      UploadService.complete_upload [("u1", uploadW9)] "u1" = .ok (s, out, c) ∧
      loadUpload s "u1" = none ∧
      createAnalysisFromUpload s "u1" = .error (.valueError "Upload incompleto") ∧
      completeUploadEndpoint s "u1" = .httpError 400 "VALIDATION_ERROR" :=
  ⟨_, _, _, rfl,
   duplicate_complete_validation_error [("u1", uploadW9)] "u1" _ _ _ rfl⟩

/-- Claim C9 counterexample: the second `complete` call is surfaced as HTTP
400 `VALIDATION_ERROR`, not as the claimed 404 NotFound. -/
theorem duplicate_complete_not_404 :
    ∃ s out c,
      UploadService.complete_upload [("u1", uploadW9)] "u1" = .ok (s, out, c) ∧
      completeUploadEndpoint s "u1" = .httpError 400 "VALIDATION_ERROR" ∧
      (completeUploadEndpoint s "u1").httpStatus ≠ some 404 := by
  exact ⟨_, _, _, rfl, rfl, by decide⟩

/-- A two-chunk upload session whose declared size will not match the bytes
delivered, used for the claim C10 theorem. -/
def uploadW10 : Upload :=
  { filename := "v.mp4", fileSize := 10, totalChunks := 2,
    mimeType := some "video/mp4", chunks := [] }

/-- Claim C10 (implicit): neither `put_chunk` nor `complete` verifies byte
counts — an upload declared as 10 bytes whose two chunks hold 7 + 1 = 8 bytes
is accepted chunk by chunk, `complete` succeeds, and the assembled file's
length (8) differs from the declared total size (10). -/
theorem complete_ignores_declared_size :
    uploadW10.fileSize = 10 ∧
    ∃ s1 s2 out c,
      applyArrivals [("u1", uploadW10)] "u1"
        [((0 : Int), List.replicate 7 1), ((1 : Int), [2])] = .ok s1 ∧
      UploadService.complete_upload s1 "u1" = .ok (s2, out, c) ∧
      out.length = 8 ∧ out.length ≠ uploadW10.fileSize := by
  exact ⟨rfl, _, _, _, _, rfl, rfl, rfl, by decide⟩

/-! ## Webhook dispatcher (app/services/webhook_service.py, app/config.py)

`WebhookService.send_webhook` posts the payload up to
`settings.WEBHOOK_RETRY_ATTEMPTS` times; each attempt either yields an HTTP
response (on which `response.raise_for_status()` raises for any status outside
2xx — httpx raises unless `is_success`) or raises a network error; every
exception is caught, and after a failed attempt `k` (except the last) the
dispatcher sleeps `2 ** k` seconds.  The function always returns a `bool`. -/

namespace Settings

/-- `Settings.WEBHOOK_TIMEOUT` (seconds). -/
def WEBHOOK_TIMEOUT : Nat := 10

/-- `Settings.WEBHOOK_RETRY_ATTEMPTS`. -/
def WEBHOOK_RETRY_ATTEMPTS : Nat := 3

end Settings

/-- Outcome of one HTTP POST attempt: a transport-level error (connect error,
timeout, ...) or a response with its status code. -/
inductive AttemptOutcome
  | networkError
  | response (statusCode : Nat)
deriving Repr, DecidableEq

/-- The attempt succeeds iff a response arrived and
`response.raise_for_status()` does not raise, i.e. the status is 2xx. -/
def attemptSucceeds : AttemptOutcome → Bool
  | .networkError => false
  | .response code => 200 ≤ code && code < 300

/-- Result of a `send_webhook` call: the returned boolean, the number of POST
attempts made, and the list of back-off sleeps performed (in seconds, in
order). -/
structure SendResult where
  delivered : Bool
  attemptsMade : Nat
  sleeps : List Nat
deriving Repr, DecidableEq

/-- The retry loop `for attempt in range(N)`, with `n` iterations remaining,
`attempt` the current 0-based attempt index and `acc` the sleeps so far. -/
def sendLoop (outcomes : Nat → AttemptOutcome) : Nat → Nat → List Nat → SendResult
  | 0, attempt, acc => ⟨false, attempt, acc⟩
  | n + 1, attempt, acc =>
    if attemptSucceeds (outcomes attempt) then ⟨true, attempt + 1, acc⟩
    else if n = 0 then ⟨false, attempt + 1, acc⟩
    else sendLoop outcomes n (attempt + 1) (acc ++ [2 ^ attempt])

namespace WebhookService

/-- `WebhookService.send_webhook`, as a function of the attempt outcomes the
environment produces.  It is total: every exception inside the loop is caught,
so a delivery failure is reported as `delivered = false` and never propagated
to the caller. -/
def send_webhook (outcomes : Nat → AttemptOutcome) : SendResult :=
  sendLoop outcomes Settings.WEBHOOK_RETRY_ATTEMPTS 0 []

end WebhookService

/-- The first attempt index `< n` (counting from `s`) that succeeds. -/
def firstOkFrom (outcomes : Nat → AttemptOutcome) (n s : Nat) : Option Nat :=
  (List.range n).find? (fun k => attemptSucceeds (outcomes (s + k)))

theorem sleeps_shift (acc : List Nat) (s j : Nat) :
    acc ++ (List.range (j + 1)).map (fun k => 2 ^ (s + k)) =
      (acc ++ [2 ^ s]) ++ (List.range j).map (fun k => 2 ^ (s + 1 + k)) := by
  rw [List.append_assoc]
  congr 1
  rw [List.range_succ_eq_map, List.map_cons, List.map_map, Nat.add_zero,
    List.singleton_append]
  have hfun : ((fun k => 2 ^ (s + k)) ∘ Nat.succ) = (fun k => 2 ^ (s + 1 + k)) := by
    funext k
    simp only [Function.comp_apply, Nat.succ_eq_add_one]
    congr 1
    omega
  rw [hfun]

theorem sendLoop_spec (outcomes : Nat → AttemptOutcome) :
    ∀ (n s : Nat) (acc : List Nat),
      sendLoop outcomes n s acc =
        match firstOkFrom outcomes n s with
        | some j => ⟨true, s + j + 1, acc ++ (List.range j).map (fun k => 2 ^ (s + k))⟩
        | none =>
          if n = 0 then ⟨false, s, acc⟩
          else ⟨false, s + n, acc ++ (List.range (n - 1)).map (fun k => 2 ^ (s + k))⟩ := by
  intro n
  induction n with
  | zero =>
    intro s acc
    simp [sendLoop, firstOkFrom]
  | succ n ih =>
    intro s acc
    by_cases hs : attemptSucceeds (outcomes s)
    · have hfind : firstOkFrom outcomes (n + 1) s = some 0 := by
        simp [firstOkFrom, List.range_succ_eq_map, List.find?_cons, hs]
      simp [sendLoop, hs, hfind]
    · have hs' : attemptSucceeds (outcomes (s + 0)) = false := by
        simpa using hs
      have hshift : firstOkFrom outcomes (n + 1) s =
          (firstOkFrom outcomes n (s + 1)).map Nat.succ := by
        unfold firstOkFrom
        rw [List.range_succ_eq_map]
        rw [List.find?_cons_of_neg _ (by simpa using hs')]
        rw [List.find?_map]
        have hpred : ((fun k => attemptSucceeds (outcomes (s + k))) ∘ Nat.succ) =
            (fun k => attemptSucceeds (outcomes (s + 1 + k))) := by
          funext k
          have harg : s + Nat.succ k = s + 1 + k := by omega
          simp only [Function.comp_apply, harg]
        rw [hpred]
      have hstep : sendLoop outcomes (n + 1) s acc =
          if attemptSucceeds (outcomes s) then ⟨true, s + 1, acc⟩
          else if n = 0 then ⟨false, s + 1, acc⟩
          else sendLoop outcomes n (s + 1) (acc ++ [2 ^ s]) := rfl
      rw [hstep, if_neg hs]
      cases n with
      | zero =>
        have hnone : firstOkFrom outcomes 1 s = none := by
          unfold firstOkFrom
          rw [List.range_succ_eq_map]
          rw [List.find?_cons_of_neg _ (by simpa using hs')]
          simp
        simp [hnone]
      | succ m =>
        rw [if_neg (Nat.succ_ne_zero m)]
        rw [ih (s + 1) (acc ++ [2 ^ s]), hshift]
        cases hf : firstOkFrom outcomes (m + 1) (s + 1) with
        | some j =>
          simp only [Option.map_some, Nat.succ_eq_add_one]
          rw [← sleeps_shift acc s j]
          congr 1
          omega
        | none =>
          simp only [Option.map_none]
          rw [if_neg (by omega : ¬ (m + 1 = 0)), if_neg (by omega : ¬ (m + 1 + 1 = 0))]
          have hm : m + 1 - 1 = m := rfl
          have hm2 : m + 1 + 1 - 1 = m + 1 := rfl
          rw [hm, hm2, ← sleeps_shift acc s m]
          congr 1
          omega

/-- Claim C7: the dispatcher attempts delivery at most `N` times (default 3:
`WEBHOOK_RETRY_ATTEMPTS = 3`), sleeps `2^k` seconds after the `k`-th failed
attempt starting at `k = 0`, does not sleep after the last attempt, retries on
any non-2xx response or network error (an attempt stops the loop iff it is a
2xx response), and a final delivery failure is reported as `delivered = false`
— never propagated to the caller as an exception. -/
theorem webhook_retry_spec :
    Settings.WEBHOOK_RETRY_ATTEMPTS = 3 ∧
    ∀ outcomes : Nat → AttemptOutcome,
      (WebhookService.send_webhook outcomes).attemptsMade ≤
        Settings.WEBHOOK_RETRY_ATTEMPTS ∧
      WebhookService.send_webhook outcomes =
        match firstOkFrom outcomes Settings.WEBHOOK_RETRY_ATTEMPTS 0 with
        | some j => ⟨true, j + 1, (List.range j).map (fun k => 2 ^ k)⟩
        | none => ⟨false, Settings.WEBHOOK_RETRY_ATTEMPTS,
                   (List.range (Settings.WEBHOOK_RETRY_ATTEMPTS - 1)).map (fun k => 2 ^ k)⟩ := by
  refine ⟨rfl, fun outcomes => ?_⟩
  have h := sendLoop_spec outcomes Settings.WEBHOOK_RETRY_ATTEMPTS 0 []
  have hsend : WebhookService.send_webhook outcomes =
      sendLoop outcomes Settings.WEBHOOK_RETRY_ATTEMPTS 0 [] := rfl
  constructor
  · rw [hsend, h]
    cases hf : firstOkFrom outcomes Settings.WEBHOOK_RETRY_ATTEMPTS 0 with
    | some j =>
      have hj : j ∈ List.range Settings.WEBHOOK_RETRY_ATTEMPTS :=
        List.mem_of_find?_eq_some hf
      have := List.mem_range.mp hj
      simpa using this
    | none => simp [Settings.WEBHOOK_RETRY_ATTEMPTS]
  · rw [hsend, h]
    cases hf : firstOkFrom outcomes Settings.WEBHOOK_RETRY_ATTEMPTS 0 with
    | some j => simp
    | none => simp [Settings.WEBHOOK_RETRY_ATTEMPTS]

/-! ## Pipeline executor (app/services/analysis_processor.py)

`AnalysisProcessor.process_analysis` drives one analysis job through
`metadata_extraction`, `prnu`, `fft`, `classification`, the virtual
`report_generation` and `cleaning`, persisting every transition through the
job database and emitting webhook events.  The analyzer routines
(`extract_metadata`, `detect_prnu`, `detect_diffusion_signature`,
`classify_video`, `generate_clean_video`, report writing, the
`analyze_metadata_integrity` / preliminary classification / timeline block)
are external workers: the embedding takes their outcomes as a `WorkerEnv`;
their payloads are opaque strings.  Timestamps use a logical clock
`Db.now` (one tick per commit).  `UPLOAD_TO_CDN` defaults to `False`, so the
CDN branches are not taken.  Webhook delivery outcomes do not feed back into
the executor (every send is wrapped in `try/except` and `send_webhook` itself
returns a boolean), so events model emission, not delivery. -/

/-- `app.models.analysis.AnalysisStatus`. -/
inductive AnalysisStatus
  | pending
  | uploading
  | analyzing
  | cleaning
  | completed
  | failed
deriving Repr, DecidableEq

/-- The `.value` of the (str-valued) enum member. -/
def AnalysisStatus.value : AnalysisStatus → String
  | .pending => "pending"
  | .uploading => "uploading"
  | .analyzing => "analyzing"
  | .cleaning => "cleaning"
  | .completed => "completed"
  | .failed => "failed"

/-- `app.models.analysis_step.StepStatus`. -/
inductive StepStatus
  | pending
  | running
  | completed
  | failed
deriving Repr, DecidableEq

/-- `app.models.analysis_step.StepName`. -/
inductive StepName
  | upload
  | metadata_extraction
  | prnu
  | fft
  | classification
  | cleaning
  | cdn_upload
deriving Repr, DecidableEq

/-- One `analysis_steps` row (the identifying columns are the key of the
`Db.steps` association list; `step_metadata` is never written by the
processor and is omitted). -/
structure AnalysisStep where
  status : StepStatus
  progress : Nat
  startedAt : Option Nat
  completedAt : Option Nat
  errorMessage : Option String
deriving Repr, DecidableEq

/-- One `analyses` row (`created_at`/`updated_at`/`user_id` are never read by
the executor and are omitted; worker payloads are opaque strings). -/
structure AnalysisRec where
  status : AnalysisStatus
  startedAt : Option Nat
  completedAt : Option Nat
  errorMessage : Option String
  webhookUrl : Option String
  classification : Option String
  confidence : Option Rat
  videoMetadata : Option String
  reportFileId : Option Nat
  cleanVideoId : Option Nat
deriving Repr, DecidableEq

/-- The database state for the one job being processed: whether its
`analyses` row exists, the row itself, its `analysis_steps` rows, and a
logical clock standing in for `datetime.utcnow()`. -/
structure Db where
  analysisExists : Bool
  analysis : AnalysisRec
  steps : List (StepName × AnalysisStep)
  now : Nat
deriving Repr, DecidableEq

/-- Outcomes of the external workers and environment probes used by one run
of `process_analysis`. -/
structure WorkerEnv where
  originalFileExists : Bool
  metadataResult : Except String String
  prnuResult : Except String String
  fftResult : Except String String
  integrityResult : Except String String
  classifyResult : Except String (String × Rat)
  reportOk : Except String Unit
  reportFileId : Nat
  ffmpegAvailable : Bool
  cleanResult : Option String
  cleanSaveOk : Bool
  cleanFileId : Nat

/-- The `step_result` argument the processor passes to
`WebhookService.send_step_update` on step completion. -/
inductive StepData
  | metadataPayload (payload : String)
  | prnuPayload (payload : String)
  | fftPayload (payload : String)
  | classificationPayload (classification : String) (confidence : Rat)
  | skippedPayload (reason : String)
  | cleanGenerated (cleanVideoId : Nat) (cdnUrl : Option String)
deriving Repr, DecidableEq

/-- The per-step `result` object `WebhookService._get_step_result` puts into
the webhook payload.  `skippedOf` is never produced by the source function —
it exists so that the specification's expected "skipped" result is statable. -/
inductive DeliveredResult
  | metadataExtracted
  | classificationOf (classification : String) (confidence : Option Rat)
  | prnuData
  | fftData
  | cleanVideoOf (cleanVideoId : Nat)
  | skippedOf (reason : String)
deriving Repr, DecidableEq

/-- `WebhookService._get_step_result`: the delivered result is derived from
the analysis row for `metadata_extraction` / `classification` / `cleaning`
(for `cleaning`, from `analysis.clean_video_id` only — the passed `step_data`
is ignored) and from the passed `step_data` for `prnu` / `fft`; every other
step yields no result. -/
def getStepResult (step : StepName) (a : AnalysisRec) (stepData : Option StepData) :
    Option DeliveredResult :=
  match step with
  | .metadata_extraction => if a.videoMetadata.isSome then some .metadataExtracted else none
  | .classification =>
    match a.classification with
    | some c => some (.classificationOf c a.confidence)
    | none => none
  | .prnu =>
    match stepData with
    | some _ => some .prnuData
    | none => none
  | .fft =>
    match stepData with
    | some _ => some .fftData
    | none => none
  | .cleaning =>
    match a.cleanVideoId with
    | some i => some (.cleanVideoOf i)
    | none => none
  | _ => none

/-- Webhook events emitted (handed to the dispatcher) by the processor, with
the payload parts the verified properties are about. -/
inductive WebhookEvent
  | started
  | stepStarted (step : StepName)
  | stepCompleted (step : StepName) (result : Option DeliveredResult)
  | reportStepStarted
  | reportStepCompleted (reportFileId : Nat)
  | analysisCompleted (classification : String) (confidence : Rat)
  | failed (error : String)
deriving Repr, DecidableEq

/-- Result of one `process_analysis` run: the final database state, the
emitted events in order, and the stage workers that were invoked. -/
structure ExecResult where
  db : Db
  events : List WebhookEvent
  invoked : List String
deriving Repr, DecidableEq

/-- `AnalysisProcessor._update_step`: find the step row and set status and
progress; `started_at` is set when transitioning to running with no
`started_at` yet, `completed_at` when completing.  A missing row is a no-op. -/
def updateStep (db : Db) (name : StepName) (st : StepStatus) (progress : Nat) : Db :=
  { db with
    steps := db.steps.map (fun p =>
      if p.1 = name then
        (p.1,
         { p.2 with
           status := st,
           progress := progress,
           startedAt := if st = .running ∧ p.2.startedAt = none then some db.now
                        else p.2.startedAt,
           completedAt := if st = .completed then some db.now else p.2.completedAt })
      else p),
    now := db.now + 1 }

/-- Commit a mutation of the analysis row. -/
def withAnalysis (db : Db) (f : AnalysisRec → AnalysisRec) : Db :=
  { db with analysis := f db.analysis, now := db.now + 1 }

/-- The processor emits each webhook only `if analysis.webhook_url`. -/
def emitIf (db : Db) (evs : List WebhookEvent) (e : WebhookEvent) : List WebhookEvent :=
  if db.analysis.webhookUrl.isSome then evs ++ [e] else evs

@[simp]
theorem updateStep_analysisExists (db : Db) (n : StepName) (st : StepStatus) (p : Nat) :
    (updateStep db n st p).analysisExists = db.analysisExists := rfl

@[simp]
theorem withAnalysis_analysisExists (db : Db) (f : AnalysisRec → AnalysisRec) :
    (withAnalysis db f).analysisExists = db.analysisExists := rfl

@[simp]
theorem updateStep_analysis (db : Db) (n : StepName) (st : StepStatus) (p : Nat) :
    (updateStep db n st p).analysis = db.analysis := rfl

@[simp]
theorem withAnalysis_analysis (db : Db) (f : AnalysisRec → AnalysisRec) :
    (withAnalysis db f).analysis = f db.analysis := rfl

/-- The `except Exception` handler at the end of `process_analysis`: re-fetch
the analysis; when present set `status = failed` and `error_message`, then
emit `analysis.failed` when a webhook URL is set.  When the row is absent the
inner access raises and the bare `except: pass` swallows everything.  Note:
no step row is touched here. -/
def failCatch (st : ExecResult) (e : String) : ExecResult :=
  if st.db.analysisExists then
    let db1 := withAnalysis st.db (fun a => { a with status := .failed, errorMessage := some e })
    { db := db1, events := emitIf db1 st.events (.failed e), invoked := st.invoked }
  else st

namespace AnalysisProcessor

/-- Step 10 of `process_analysis` ("Finalizar análise"): re-fetch the
analysis (raising, into the outer handler, when it disappeared), set
`status = completed` and `completed_at`, and emit `analysis.completed` with
the classification and confidence. -/
def finishAnalysis (db : Db) (evs : List WebhookEvent) (cls : String × Rat)
    (inv : List String) : ExecResult :=
  if ¬ db.analysisExists then
    failCatch ⟨db, evs, inv⟩ "Análise não encontrada ao finalizar"
  else
    let db1 := withAnalysis db
      (fun a => { a with status := .completed, completedAt := some db.now })
    ⟨db1, emitIf db1 evs (.analysisCompleted cls.1 cls.2), inv⟩

/-- Step 9 of `process_analysis` (the `cleaning` stage), followed by the
finalization.  When FFmpeg is unavailable the stage is marked completed
without invoking the worker and the processor passes
`{"skipped": True, "reason": "FFmpeg não disponível"}` as the step result;
otherwise `generate_clean_video` runs (its exceptions are caught, yielding
`None`), a produced file is attached to the analysis when the database save
succeeds (a failure is rolled back and the run continues without the clean
video), the stage is marked completed, and the step result passed on is
derived from `analysis.clean_video_id`. -/
def cleaningStage (env : WorkerEnv) (db : Db) (evs : List WebhookEvent)
    (cls : String × Rat) (inv : List String) : ExecResult :=
  let dbA := updateStep db .cleaning .running 0
  let evsA := emitIf dbA evs (.stepStarted .cleaning)
  if ¬ env.ffmpegAvailable then
    let dbB := updateStep dbA .cleaning .completed 100
    let evsB := emitIf dbB evsA (.stepCompleted .cleaning
      (getStepResult .cleaning dbB.analysis (some (.skippedPayload "FFmpeg não disponível"))))
    finishAnalysis dbB evsB cls inv
  else
    match env.cleanResult with
    | some _ =>
      if env.cleanSaveOk then
        let dbB := withAnalysis dbA (fun a => { a with cleanVideoId := some env.cleanFileId })
        let dbC := updateStep dbB .cleaning .completed 100
        let evsB := emitIf dbC evsA (.stepCompleted .cleaning
          (getStepResult .cleaning dbC.analysis
            (some (.cleanGenerated env.cleanFileId none))))
        finishAnalysis dbC evsB cls (inv ++ ["cleaning"])
      else
        let dbC := updateStep dbA .cleaning .completed 100
        let evsB := emitIf dbC evsA (.stepCompleted .cleaning
          (getStepResult .cleaning dbC.analysis none))
        finishAnalysis dbC evsB cls (inv ++ ["cleaning"])
    | none =>
      let dbC := updateStep dbA .cleaning .completed 100
      let evsB := emitIf dbC evsA (.stepCompleted .cleaning
        (getStepResult .cleaning dbC.analysis none))
      finishAnalysis dbC evsB cls (inv ++ ["cleaning"])

/-- `AnalysisProcessor.process_analysis`.  The stages run unconditionally in
source order — the persisted step states are only ever written, never
consulted.  A worker error escapes to the final `except` handler
(`failCatch`); `report_generation` failures are swallowed in place. -/
def process_analysis (env : WorkerEnv) (db0 : Db) : ExecResult :=
  if ¬ db0.analysisExists then ⟨db0, [], []⟩ else
  if ¬ env.originalFileExists then ⟨db0, [], []⟩ else
  let db1 := withAnalysis db0 (fun a => { a with status := .analyzing, startedAt := some db0.now })
  let evs1 := emitIf db1 [] .started
  let db2 := updateStep db1 .metadata_extraction .running 0
  let evs2 := emitIf db2 evs1 (.stepStarted .metadata_extraction)
  match env.metadataResult with
  | .error e => failCatch ⟨db2, evs2, ["metadata_extraction"]⟩ e
  | .ok md =>
  let db3 := withAnalysis db2 (fun a => { a with videoMetadata := some md })
  let db4 := updateStep db3 .metadata_extraction .completed 100
  let evs3 := emitIf db4 evs2 (.stepCompleted .metadata_extraction
    (getStepResult .metadata_extraction db4.analysis (some (.metadataPayload md))))
  let db5 := updateStep db4 .prnu .running 0
  let evs4 := emitIf db5 evs3 (.stepStarted .prnu)
  match env.prnuResult with
  | .error e => failCatch ⟨db5, evs4, ["metadata_extraction", "prnu"]⟩ e
  | .ok pr =>
  let db6 := updateStep db5 .prnu .completed 100
  let evs5 := emitIf db6 evs4 (.stepCompleted .prnu
    (getStepResult .prnu db6.analysis (some (.prnuPayload pr))))
  let db7 := updateStep db6 .fft .running 0
  let evs6 := emitIf db7 evs5 (.stepStarted .fft)
  match env.fftResult with
  | .error e => failCatch ⟨db7, evs6, ["metadata_extraction", "prnu", "fft"]⟩ e
  | .ok ff =>
  let db8 := updateStep db7 .fft .completed 100
  let evs7 := emitIf db8 evs6 (.stepCompleted .fft
    (getStepResult .fft db8.analysis (some (.fftPayload ff))))
  match env.integrityResult with
  | .error e => failCatch ⟨db8, evs7, ["metadata_extraction", "prnu", "fft"]⟩ e
  | .ok _ =>
  let db9 := updateStep db8 .classification .running 0
  let evs8 := emitIf db9 evs7 (.stepStarted .classification)
  match env.classifyResult with
  | .error e =>
    failCatch ⟨db9, evs8, ["metadata_extraction", "prnu", "fft", "classification"]⟩ e
  | .ok cls =>
  let db10 := withAnalysis db9
    (fun a => { a with classification := some cls.1, confidence := some cls.2 })
  let db11 := updateStep db10 .classification .completed 100
  let evs9 := emitIf db11 evs8 (.stepCompleted .classification
    (getStepResult .classification db11.analysis
      (some (.classificationPayload cls.1 cls.2))))
  let evs10 := emitIf db11 evs9 .reportStepStarted
  let inv5 := ["metadata_extraction", "prnu", "fft", "classification", "report_generation"]
  match env.reportOk with
  | .error _ => cleaningStage env db11 evs10 cls inv5
  | .ok _ =>
    let db12 := withAnalysis db11 (fun a => { a with reportFileId := some env.reportFileId })
    let evs11 := emitIf db12 evs10 (.reportStepCompleted env.reportFileId)
    cleaningStage env db12 evs11 cls inv5

end AnalysisProcessor

/-- The step rows `AnalysisService.create_analysis_from_upload` inserts for a
new job: `upload` completed at creation, everything else pending. -/
def initialSteps (now : Nat) : List (StepName × AnalysisStep) :=
  [(.upload, { status := .completed, progress := 100, startedAt := some now,
               completedAt := some now, errorMessage := none }),
   (.metadata_extraction, { status := .pending, progress := 0, startedAt := none,
                            completedAt := none, errorMessage := none }),
   (.prnu, { status := .pending, progress := 0, startedAt := none,
             completedAt := none, errorMessage := none }),
   (.fft, { status := .pending, progress := 0, startedAt := none,
            completedAt := none, errorMessage := none }),
   (.classification, { status := .pending, progress := 0, startedAt := none,
                       completedAt := none, errorMessage := none }),
   (.cleaning, { status := .pending, progress := 0, startedAt := none,
                 completedAt := none, errorMessage := none })]

/-- A freshly created job as `create_analysis_from_upload` leaves it:
status pending, no timestamps, the initial step rows. -/
def freshJob (webhookUrl : Option String) : Db :=
  { analysisExists := true,
    analysis := { status := .pending, startedAt := none, completedAt := none,
                  errorMessage := none, webhookUrl := webhookUrl,
                  classification := none, confidence := none, videoMetadata := none,
                  reportFileId := none, cleanVideoId := none },
    steps := initialSteps 0,
    now := 1 }

/-- The step row of the given name. -/
def stepOf (db : Db) (name : StepName) : Option AnalysisStep :=
  (db.steps.find? (fun p => p.1 == name)).map (·.2)

/-- An environment in which every worker succeeds and FFmpeg is available. -/
def envAllOk : WorkerEnv :=
  { originalFileExists := true,
    metadataResult := .ok "md",
    prnuResult := .ok "pr",
    fftResult := .ok "ff",
    integrityResult := .ok "ig",
    classifyResult := .ok ("REAL_CAMERA", (9 : Rat) / 10),
    reportOk := .ok (),
    reportFileId := 71,
    ffmpegAvailable := true,
    cleanResult := some "clean.mp4",
    cleanSaveOk := true,
    cleanFileId := 72 }

/-- `envAllOk` with the `fft` worker raising. -/
def envFftFail : WorkerEnv := { envAllOk with fftResult := .error "boom" }

/-- `envAllOk` with the external encoder (FFmpeg) unavailable. -/
def envNoFFmpeg : WorkerEnv := { envAllOk with ffmpegAvailable := false }

/-- A job whose `metadata_extraction` stage is already Completed (e.g. after
a crash and restart). -/
def dbResumed : Db :=
  { freshJob (some "http://h") with
    steps := (initialSteps 0).map (fun p =>
      if p.1 = .metadata_extraction then
        (p.1, { p.2 with status := .completed, progress := 100,
                         startedAt := some 0, completedAt := some 0 })
      else p) }

/-- Claim C1 counterexample: on a job whose `metadata_extraction` stage is
recorded Completed, running the executor re-invokes the metadata worker —
the Completed stage is not skipped, contradicting the claim. -/
theorem executor_reinvokes_completed_stage :
    (stepOf dbResumed .metadata_extraction).map (·.status) = some .completed ∧
    "metadata_extraction" ∈ (AnalysisProcessor.process_analysis envAllOk dbResumed).invoked := by
  decide

/-- Claim C1 (amended): the executor never consults the persisted step
states: for every database state whose analysis row exists (whatever its
step records say) and every environment in which the stage workers succeed
and FFmpeg is available, every stage worker — including the workers of
already-Completed stages — is invoked, in registry order. -/
theorem executor_invokes_all_workers
    (env : WorkerEnv) (db : Db) (md pr ff ig : String) (cls : String × Rat)
    (hex : db.analysisExists = true)
    (hof : env.originalFileExists = true)
    (hmd : env.metadataResult = .ok md)
    (hpr : env.prnuResult = .ok pr)
    (hff : env.fftResult = .ok ff)
    (hig : env.integrityResult = .ok ig)
    (hcl : env.classifyResult = .ok cls)
    (hffm : env.ffmpegAvailable = true) :
    (AnalysisProcessor.process_analysis env db).invoked =
      ["metadata_extraction", "prnu", "fft", "classification", "report_generation",
       "cleaning"] := by
  obtain ⟨ex, arec, steps, now⟩ := db
  obtain ⟨of, mr, prr, fr, ir, clr, ro, rid, fa, cres, cso, cid⟩ := env
  replace hex : ex = true := hex
  replace hof : of = true := hof
  replace hmd : mr = .ok md := hmd
  replace hpr : prr = .ok pr := hpr
  replace hff : fr = .ok ff := hff
  replace hig : ir = .ok ig := hig
  replace hcl : clr = .ok cls := hcl
  replace hffm : fa = true := hffm
  subst hex hof hmd hpr hff hig hcl hffm
  cases ro <;> cases cres <;> cases cso <;> rfl

/-- Claim C1 witness: the amended claim at the concrete resumed job. -/
theorem executor_invokes_all_workers_witness :
    (AnalysisProcessor.process_analysis envAllOk dbResumed).invoked =
      ["metadata_extraction", "prnu", "fft", "classification", "report_generation",
       "cleaning"] :=
  executor_invokes_all_workers envAllOk dbResumed "md" "pr" "ff" "ig"
    ("REAL_CAMERA", (9 : Rat) / 10) rfl rfl rfl rfl rfl rfl rfl rfl

/-- Claim C2 counterexample: when the `fft` worker raises, the `fft` step row
is left in state `running` with no `error_message` — it is not marked
`failed`, contradicting the claim. -/
theorem stage_failure_step_not_failed :
    (stepOf (AnalysisProcessor.process_analysis envFftFail
        (freshJob (some "http://h"))).db .fft).map (·.status) ≠ some .failed ∧
    (stepOf (AnalysisProcessor.process_analysis envFftFail
        (freshJob (some "http://h"))).db .fft).map (·.status) = some .running ∧
    (stepOf (AnalysisProcessor.process_analysis envFftFail
        (freshJob (some "http://h"))).db .fft).map (·.errorMessage) = some none := by
  decide

/-- Claim C2 (amended): for a fresh job with a webhook URL whose `fft` worker
raises `e` after `metadata_extraction` and `prnu` succeeded, afterwards the
`fft` step row remains `running` with `error_message` unset (the processor
never marks a step failed), the job is `failed` with `error_message = e`, the
last emitted event is `analysis.failed` with that error, the earlier steps
remain Completed, and the later steps remain Pending. -/
theorem stage_failure_state (u md pr e : String) (env : WorkerEnv)
    (hof : env.originalFileExists = true)
    (hmd : env.metadataResult = .ok md)
    (hpr : env.prnuResult = .ok pr)
    (hff : env.fftResult = .error e) :
    let r := AnalysisProcessor.process_analysis env (freshJob (some u))
    (stepOf r.db .fft).map (·.status) = some .running ∧
    (stepOf r.db .fft).map (·.errorMessage) = some none ∧
    r.db.analysis.status = .failed ∧
    r.db.analysis.errorMessage = some e ∧
    r.events.getLast? = some (.failed e) ∧
    (stepOf r.db .upload).map (·.status) = some .completed ∧
    (stepOf r.db .metadata_extraction).map (·.status) = some .completed ∧
    (stepOf r.db .prnu).map (·.status) = some .completed ∧
    (stepOf r.db .classification).map (·.status) = some .pending ∧
    (stepOf r.db .cleaning).map (·.status) = some .pending := by
  simp [AnalysisProcessor.process_analysis, freshJob, initialSteps, updateStep,
    withAnalysis, emitIf, failCatch, getStepResult, stepOf, hof, hmd, hpr, hff,
    List.getLast?_concat]

/-- Claim C2 witness: the amended claim at a concrete failing run. -/
theorem stage_failure_state_witness :
    let r := AnalysisProcessor.process_analysis envFftFail (freshJob (some "http://h"))
    (stepOf r.db .fft).map (·.status) = some .running ∧
    (stepOf r.db .fft).map (·.errorMessage) = some none ∧
    r.db.analysis.status = .failed ∧
    r.db.analysis.errorMessage = some "boom" ∧
    r.events.getLast? = some (.failed "boom") ∧
    (stepOf r.db .upload).map (·.status) = some .completed ∧
    (stepOf r.db .metadata_extraction).map (·.status) = some .completed ∧
    (stepOf r.db .prnu).map (·.status) = some .completed ∧
    (stepOf r.db .classification).map (·.status) = some .pending ∧
    (stepOf r.db .cleaning).map (·.status) = some .pending :=
  stage_failure_state "http://h" "md" "pr" "boom" envFftFail rfl rfl rfl rfl

/-- Claim C6 counterexample: with the encoder unavailable, the `cleaning`
step.completed event carries no result at all — neither the claimed
`{skipped: true, reason: "encoder unavailable"}` nor the processor's own
`{skipped: true, reason: "FFmpeg não disponível"}` payload survives
`_get_step_result`. -/
theorem cleaning_skip_result_not_delivered :
    WebhookEvent.stepCompleted .cleaning (some (.skippedOf "encoder unavailable"))
      ∉ (AnalysisProcessor.process_analysis envNoFFmpeg (freshJob (some "http://h"))).events ∧
    WebhookEvent.stepCompleted .cleaning (some (.skippedOf "FFmpeg não disponível"))
      ∉ (AnalysisProcessor.process_analysis envNoFFmpeg (freshJob (some "http://h"))).events ∧
    WebhookEvent.stepCompleted .cleaning none
      ∈ (AnalysisProcessor.process_analysis envNoFFmpeg (freshJob (some "http://h"))).events := by
  decide

/-- Claim C6 (amended): when the external encoder is unavailable, the
`cleaning` stage is marked Completed (progress 100) without invoking the
encoder, the job reaches state Completed and `clean_video_id` stays absent;
the processor passes a `{skipped, reason: "FFmpeg não disponível"}` result to
the webhook layer, but `_get_step_result` drops it, so the emitted
`analysis.step.completed` for `cleaning` carries no result. -/
theorem cleaning_skip_state (u md pr ff ig : String) (cls : String × Rat) (env : WorkerEnv)
    (hof : env.originalFileExists = true)
    (hmd : env.metadataResult = .ok md)
    (hpr : env.prnuResult = .ok pr)
    (hff : env.fftResult = .ok ff)
    (hig : env.integrityResult = .ok ig)
    (hcl : env.classifyResult = .ok cls)
    (hrep : env.reportOk = .ok ())
    (hffm : env.ffmpegAvailable = false) :
    let r := AnalysisProcessor.process_analysis env (freshJob (some u))
    (stepOf r.db .cleaning).map (·.status) = some .completed ∧
    (stepOf r.db .cleaning).map (·.progress) = some 100 ∧
    r.db.analysis.status = .completed ∧
    r.db.analysis.cleanVideoId = none ∧
    "cleaning" ∉ r.invoked ∧
    WebhookEvent.stepCompleted .cleaning none ∈ r.events ∧
    ∀ res : DeliveredResult, WebhookEvent.stepCompleted .cleaning (some res) ∉ r.events := by
  simp [AnalysisProcessor.process_analysis, AnalysisProcessor.cleaningStage,
    AnalysisProcessor.finishAnalysis, freshJob, initialSteps, updateStep, withAnalysis,
    emitIf, failCatch, getStepResult, stepOf, hof, hmd, hpr, hff, hig, hcl, hrep, hffm]

/-- Claim C6 witness: the amended claim at a concrete encoder-less run. -/
theorem cleaning_skip_state_witness :
    let r := AnalysisProcessor.process_analysis envNoFFmpeg (freshJob (some "http://h"))
    (stepOf r.db .cleaning).map (·.status) = some .completed ∧
    (stepOf r.db .cleaning).map (·.progress) = some 100 ∧
    r.db.analysis.status = .completed ∧
    r.db.analysis.cleanVideoId = none ∧
    "cleaning" ∉ r.invoked ∧
    WebhookEvent.stepCompleted .cleaning none ∈ r.events ∧
    ∀ res : DeliveredResult, WebhookEvent.stepCompleted .cleaning (some res) ∉ r.events :=
  cleaning_skip_state "http://h" "md" "pr" "ff" "ig" ("REAL_CAMERA", (9 : Rat) / 10)
    envNoFFmpeg rfl rfl rfl rfl rfl rfl rfl rfl

/-! ## Reprocess endpoint (app/api/v1/endpoints/analysis.py) -/

/-- Outcome of `POST /analysis/{id}/reprocess`. -/
inductive ReprocessHttp
  | accepted
  | httpError (statusCode : Nat) (detail : String)
deriving Repr, DecidableEq

/-- The `reprocess_analysis` endpoint: 404 when the analysis is missing; the
guard `analysis.status.value == "running"` is meant to reject an analysis
already in processing with HTTP 400; otherwise `process_analysis` is spawned
in the background and success is returned. -/
def reprocessAnalysis (analysis : Option AnalysisRec) : ReprocessHttp :=
  match analysis with
  | none => .httpError 404 "Análise não encontrada"
  | some a =>
    if a.status.value = "running" then .httpError 400 "Análise já está em processamento"
    else .accepted

/-- Claim C5 (code evaluation): the guard compares `status.value` with
`"running"`, but no `AnalysisStatus` member has that value — a job being
processed has status `analyzing` — so `reprocess` is accepted for every
existing analysis, whatever its state; no Conflict rejection can ever
happen and a Running (analyzing) job is reprocessed rather than rejected. -/
theorem reprocess_accepts_any_status (a : AnalysisRec) :
    reprocessAnalysis (some a) = .accepted ∧ a.status.value ≠ "running" := by
  obtain ⟨st, s1, s2, em, wu, c, cf, vm, rf, cv⟩ := a
  cases st <;> simp [reprocessAnalysis, AnalysisStatus.value]

end VidFinger
